import Mathlib

set_option maxRecDepth 4000

/-!
Verification development for an AI pull-request reviewer pipeline.

The embedded code comes from three Python modules:
* `utils.py` — the diff-position resolver `parse_patch_for_line` and the
  change filter `filter_files` (which uses `fnmatch.fnmatch` glob matching);
* `github_api.py` — the paginated, rate-limited GitHub client
  (`get_pr_files` pagination loop, `_make_request` rate-limit backoff,
  `create_review` payload construction);
* `pr_reviewer.py` / `ai_reviewer.py` — the orchestrator's per-file comment
  loop and submission branch, and the inference client's failure fallbacks.

Strings are modelled by Lean `String` / `List Char`; Python `None`-able
values by `Option`; the external HTTP and inference boundaries by function
parameters (`fetch : Nat → List α`) and `Except` values.  Unbounded `while`
loops are given explicit fuel; a fuel bound large enough for the loop to
finish is always supplied by hypothesis, so the fuel is a modelling
artifact only.
-/

/-- Boolean prefix test on character lists; `isPrefixOfChars p s` embeds
Python's `s.startswith(p)` for the string whose characters are `s`. -/
def isPrefixOfChars : List Char → List Char → Bool
  | [], _ => true
  | _ :: _, [] => false
  | p :: ps, c :: cs => decide (p = c) && isPrefixOfChars ps cs

/-- Embeds `line_content.startswith('+') and not line_content.startswith('+++')`
from `parse_patch_for_line` in `utils.py`: the test for an addition line. -/
def lineIsAddition (l : List Char) : Bool :=
  isPrefixOfChars ['+'] l && !isPrefixOfChars ['+', '+', '+'] l

/-- Embeds `lines[i].startswith('@@')` from `parse_patch_for_line`:
the test for a hunk-header line. -/
def lineIsHunkHeader (l : List Char) : Bool :=
  isPrefixOfChars ['@', '@'] l

/-- Numeric value of a list of decimal digit characters, most significant
first; embeds Python's `int(...)` on the digit group. -/
def digitsToNat (ds : List Char) : Nat :=
  ds.foldl (fun a c => a * 10 + (c.toNat - 48)) 0

/-- Embeds `re.search(r'\+(\d+)', line)` followed by `int(match.group(1))`:
scan left to right for a `'+'` immediately followed by at least one ASCII
digit, and return the value of the maximal digit run after that `'+'`. -/
def searchPlusNum : List Char → Option Nat
  | [] => none
  | c :: rest =>
    if c = '+' then
      match rest with
      | d :: _ =>
        if d.isDigit then some (digitsToNat (rest.takeWhile Char.isDigit))
        else searchPlusNum rest
      | [] => none
    else searchPlusNum rest

/-- Embeds the backward walk `for i in range(idx, -1, -1)` of
`parse_patch_for_line`.  The argument is the list of lines strictly before
the current addition line, nearest first (the walk starts at the addition
line itself, which begins with `'+'` and so can never satisfy the
`startswith('@@')` test).  If the walk reaches a hunk header whose text
matches `\+(\d+)` with value `n` after skipping `j` lines, the Python code
returns `n + (idx - i - 1) = n + j`; `findHunkValue` returns that combined
value directly, adding `1` for every skipped line. -/
def findHunkValue : List (List Char) → Option Nat
  | [] => none
  | l :: rest =>
    if lineIsHunkHeader l then
      match searchPlusNum l with
      | some n => some n
      | none => (findHunkValue rest).map (· + 1)
    else (findHunkValue rest).map (· + 1)

/-- Embeds the outer `for idx, line_content in enumerate(lines)` loop of
`parse_patch_for_line`: the first component accumulates, in reverse, the
lines already passed; on each addition line the backward walk
(`findHunkValue`) runs, and its value is returned when it succeeds;
when every line is exhausted the default `line = 1` is returned. -/
def parsePatchAux : List (List Char) → List (List Char) → Nat
  | _, [] => 1
  | rev, l :: rest =>
    if lineIsAddition l then
      match findHunkValue rev with
      | some v => v
      | none => parsePatchAux (l :: rev) rest
    else parsePatchAux (l :: rev) rest

/-- Embeds Python's `patch.split('\n')` on the character list of the patch:
splitting on every newline, keeping empty pieces, with `[""]` for the
empty string. -/
def splitLines : List Char → List (List Char)
  | [] => [[]]
  | c :: cs =>
    if c = '\n' then [] :: splitLines cs
    else
      match splitLines cs with
      | [] => [[c]]
      | l :: ls => (c :: l) :: ls

/-- Embeds `parse_patch_for_line(patch)` from `utils.py`: split the patch
into lines, find the first addition line, walk backward to the nearest
hunk header matching `\+(\d+)`, and return its number plus the count of
lines strictly between header and addition line; default to `1` when no
addition line finds such a header. -/
def parse_patch_for_line (patch : String) : Nat :=
  parsePatchAux [] (splitLines patch.data)

/-- Scan a character-class body for its closing `']'`, returning the
members before it and the remainder of the pattern; `none` when the class
is never closed (in which case `fnmatch` treats `'['` as a literal). -/
def splitClass : List Char → Option (List Char × List Char)
  | [] => none
  | c :: rest =>
    if c = ']' then some ([], rest)
    else (splitClass rest).map fun pr => (c :: pr.1, pr.2)

/-- Helper for `parseClass`: a `']'` directly after `'['` (or after `'[!'`)
is a literal member of the class, as in Python's `fnmatch.translate`. -/
def classBody (neg : Bool) (cs : List Char) : Option (Bool × List Char × List Char) :=
  match cs with
  | ']' :: r2 => (splitClass r2).map fun pr => (neg, ']' :: pr.1, pr.2)
  | _ => (splitClass cs).map fun pr => (neg, pr.1, pr.2)

/-- Parse what follows a `'['` in an `fnmatch` pattern: an optional `'!'`
negation, then the class members up to the closing `']'`; returns the
negation flag, the members, and the rest of the pattern. -/
def parseClass : List Char → Option (Bool × List Char × List Char)
  | '!' :: rest => classBody true rest
  | cs => classBody false cs

/-- Membership of a character in a class body, with `a-b` codepoint ranges
as in `fnmatch`; a `'-'` first or last in the body is a literal member. -/
def inClass (c : Char) : List Char → Bool
  | [] => false
  | a :: '-' :: b :: rest => (decide (a ≤ c) && decide (c ≤ b)) || inClass c rest
  | a :: rest => decide (c = a) || inClass c rest

/-- Fueled glob matcher embedding Python's `fnmatch.fnmatchcase(name, pat)`
on a POSIX system (where `fnmatch.fnmatch` does no case folding):
`*` matches any run of characters, `?` any single character, `[...]` a
character class (`[!...]` negated, unmatched `'['` literal), anything else
itself.  Every recursive call strictly decreases the summed length of
pattern and name, so fuel `pattern.length + name.length + 1` (supplied by
`globMatch`) always suffices and the out-of-fuel branch is unreachable. -/
def globMatchFuel : Nat → List Char → List Char → Bool
  | 0, _, _ => false
  | _ + 1, [], name => name.isEmpty
  | fuel + 1, '*' :: ps, name =>
    globMatchFuel fuel ps name ||
      (match name with
       | [] => false
       | _ :: cs => globMatchFuel fuel ('*' :: ps) cs)
  | fuel + 1, '?' :: ps, name =>
    (match name with
     | [] => false
     | _ :: cs => globMatchFuel fuel ps cs)
  | fuel + 1, '[' :: ps, name =>
    (match parseClass ps with
     | some (neg, content, rest) =>
       (match name with
        | [] => false
        | c :: cs =>
          (if neg then !inClass c content else inClass c content) &&
            globMatchFuel fuel rest cs)
     | none =>
       (match name with
        | [] => false
        | c :: cs => decide (c = '[') && globMatchFuel fuel ps cs))
  | fuel + 1, p :: ps, name =>
    (match name with
     | [] => false
     | c :: cs => decide (p = c) && globMatchFuel fuel ps cs)

/-- Glob matching with sufficient fuel; see `globMatchFuel`. -/
def globMatch (pattern name : List Char) : Bool :=
  globMatchFuel (pattern.length + name.length + 1) pattern name

/-- Embeds `fnmatch.fnmatch(filename, pattern)` as called by
`filter_files` in `utils.py`. -/
def fnmatch (name pattern : String) : Bool :=
  globMatch pattern.data name.data

/-- Embeds the file dictionaries delivered by the GitHub
`pulls/{n}/files` endpoint, as consumed by `filter_files` and the
orchestrator loop in `pr_reviewer.py`: `filename` is always present
(accessed with `file_data["filename"]`); `status`, `changes` and `patch`
are accessed with `.get` and so may be absent (`none`). -/
structure FileData where
  filename : String
  status : Option String
  changes : Option Nat
  patch : Option String
deriving DecidableEq

/-- The per-file keep decision of `filter_files` in `utils.py`, as the
negation of its three `continue` conditions:
`file_data.get("status") == "removed" or file_data.get("changes", 0) > max_changes`,
`not file_data.get("patch")` (absent or empty patch), and
`any(fnmatch.fnmatch(filename, pattern) for pattern in exclusion_patterns)`. -/
def keep_file (max_changes : Nat) (exclusion_patterns : List String)
    (file_data : FileData) : Bool :=
  !(decide (file_data.status = some "removed") ||
      decide (file_data.changes.getD 0 > max_changes)) &&
  !(match file_data.patch with
    | none => true
    | some p => decide (p = "")) &&
  !(exclusion_patterns.any fun pattern => fnmatch file_data.filename pattern)

/-- Embeds `filter_files(files, max_changes, exclusion_patterns=None)`
from `utils.py`: `exclusion_patterns = exclusion_patterns or []` maps
`None` (and `[]`) to `[]`; the loop appends, in input order, exactly the
files that pass every check. -/
def filter_files (files : List FileData) (max_changes : Nat)
    (exclusion_patterns : Option (List String)) : List FileData :=
  files.filter (keep_file max_changes (exclusion_patterns.getD []))

/-- Modelled from the spec's wording of the filtering policy (section 4.3
and the testable properties): a file survives exactly when its status is
not "removed", its change count is at most `max_changes`, its patch is
present and non-empty, and its filename matches no exclusion glob
pattern.  Stated separately from `keep_file` (which follows the code's
skip conditions) so the two can be compared. -/
def spec_keep (max_changes : Nat) (exclusion_patterns : List String)
    (file_data : FileData) : Bool :=
  decide (file_data.status ≠ some "removed") &&
  decide (file_data.changes.getD 0 ≤ max_changes) &&
  (match file_data.patch with
   | some p => decide (p ≠ "")
   | none => false) &&
  (exclusion_patterns.all fun pattern => !fnmatch file_data.filename pattern)

/-- Embeds the `while True` pagination loop of `GitHubAPI.get_pr_files`
in `github_api.py`, with the HTTP boundary abstracted as
`fetch : Nat → List α` (the items the endpoint returns for a given page
number).  Returns the accumulated items together with the list of page
numbers requested, in request order.  The loop requests `page`, appends
the result, stops if the page held fewer than `per_page` items, and
otherwise continues with `page + 1`; the fuel bounds the number of
iterations of this unbounded loop and is a modelling artifact. -/
def get_pr_files_loop {α : Type} (fetch : Nat → List α) (per_page : Nat) :
    Nat → Nat → List α × List Nat
  | 0, _ => ([], [])
  | fuel + 1, page =>
    let files_page := fetch page
    if files_page.length < per_page then (files_page, [page])
    else
      let rest := get_pr_files_loop fetch per_page fuel (page + 1)
      (files_page ++ rest.1, page :: rest.2)

/-- Embeds `GitHubAPI.get_pr_files`: pagination starts at `page = 1`. -/
def get_pr_files {α : Type} (fetch : Nat → List α) (per_page fuel : Nat) :
    List α × List Nat :=
  get_pr_files_loop fetch per_page fuel 1

/-- Concrete paginated endpoint with pages of sizes 100, 100 and 40,
used to check the accumulation property at page size 100. -/
def paginationExample : Nat → List Nat := fun page =>
  if page = 1 then List.replicate 100 0
  else if page = 2 then List.replicate 100 1
  else if page = 3 then List.replicate 40 2
  else []

/-- Embeds the rate-limit check at the top of `GitHubAPI._make_request`
in `github_api.py`: with fewer than 10 requests remaining and the current
time before the tracked reset time, the client sleeps for
`rate_limit_reset - current_time + 1` seconds before issuing the request;
otherwise no sleep happens (`none`).  Python's float time values are
modelled by rationals. -/
def rate_limit_sleep (rate_limit_remaining : Int)
    (rate_limit_reset current_time : ℚ) : Option ℚ :=
  if rate_limit_remaining < 10 then
    if current_time < rate_limit_reset then
      some (rate_limit_reset - current_time + 1)
    else none
  else none

/-- Embeds the inline comment dictionaries `{"path": ..., "line": ...,
"body": ...}` built by `main` in `pr_reviewer.py`. -/
structure ReviewComment where
  path : String
  line : Nat
  body : String
deriving DecidableEq

/-- Embeds the request body assembled by `GitHubAPI.create_review`:
`commit_id`, `body` and `event` always; the `comments` key only when the
`comments` argument is truthy (neither `None` nor the empty list). -/
structure ReviewPayload where
  commit_id : String
  body : String
  event : String
  comments : Option (List ReviewComment)
deriving DecidableEq

/-- Embeds `GitHubAPI.create_review(repo, pr_number, commit_id, comments,
body, event)` as the payload it posts (the repo/PR routing is not
modelled). -/
def create_review (commit_id : String) (comments : Option (List ReviewComment))
    (body event : String) : ReviewPayload :=
  { commit_id := commit_id
    body := body
    event := event
    comments :=
      match comments with
      | some cs => if cs = [] then none else some cs
      | none => none }

/-- The two kinds of post the orchestrator can make at submission time:
a batched review or a plain conversation (issue) comment. -/
inductive SubmittedPost where
  | review (payload : ReviewPayload)
  | issueComment (body : String)
deriving DecidableEq

/-- Embeds the submission branch of `main` in `pr_reviewer.py`:
`if review_comments:` submit one batched review via `create_review` with
the summary as body and the configured event; `else` post the summary as
an issue comment via `create_issue_comment`. -/
def submit_review (commit_id : String) (review_comments : List ReviewComment)
    (summary_with_footer event : String) : SubmittedPost :=
  if review_comments = [] then
    SubmittedPost.issueComment summary_with_footer
  else
    SubmittedPost.review
      (create_review commit_id (some review_comments) summary_with_footer event)

/-- Embeds Python's `str.strip()` (whitespace trimming at both ends),
applied by the inference client to successful model output. -/
def pyStrip (s : String) : String :=
  ⟨((s.data.dropWhile Char.isWhitespace).reverse.dropWhile Char.isWhitespace).reverse⟩

/-- Embeds `AICodeReviewer.analyze_file_change` in `ai_reviewer.py` at the
inference boundary: the argument is the outcome of the
`chat.completions.create` call (`Except.error e` when the call raised an
exception with text `e`).  A success is stripped and returned; any failure
is caught and replaced by the literal fallback text — the function is
total, so an inference failure never propagates. -/
def analyze_file_change (aiResult : Except String String) : String :=
  match aiResult with
  | Except.ok content => pyStrip content
  | Except.error e => "⚠️ AI review failed: " ++ e

/-- Embeds `AICodeReviewer.generate_pr_summary` in `ai_reviewer.py` at the
inference boundary, in the same way as `analyze_file_change`: any failure
is caught and replaced by the literal fallback text. -/
def generate_pr_summary (aiResult : Except String String) : String :=
  match aiResult with
  | Except.ok content => pyStrip content
  | Except.error e => "## AI Review Summary\n\nFailed to generate summary: " ++ e

/-- The warning marker (the warning-sign emoji) that the spec says failure
placeholders begin with. -/
def warningMarker : String := "⚠️"

/-- Embeds the per-file analysis loop of `main` in `pr_reviewer.py`:
iterate over `files_to_review[:MAX_FILES]`; skip any file whose patch is
absent or empty (`if not patch: continue`); otherwise build the comment
dictionary with the filename as path, `parse_patch_for_line(patch)` as
line, and the AI review wrapped in the fixed header as body.  The AI
analysis is abstracted as `analyze : String → String → String`
(filename and patch to review text). -/
def build_review_comments (analyze : String → String → String)
    (max_files : Nat) (files_to_review : List FileData) : List ReviewComment :=
  (files_to_review.take max_files).filterMap fun file_data =>
    match file_data.patch with
    | none => none
    | some patch =>
      if patch = "" then none
      else
        some { path := file_data.filename
               line := parse_patch_for_line patch
               body := "### AI Code Review\n\n" ++ analyze file_data.filename patch }

/-- A hunk-header line begins with an at sign, so it can never pass the
addition-line test, which requires a leading plus sign. -/
theorem hunk_header_not_addition {l : List Char} (h : lineIsHunkHeader l = true) :
    lineIsAddition l = false := by
  cases l with
  | nil => simp [lineIsHunkHeader, isPrefixOfChars] at h
  | cons c cs =>
    simp only [lineIsHunkHeader, isPrefixOfChars, Bool.and_eq_true,
      decide_eq_true_eq] at h
    simp [lineIsAddition, isPrefixOfChars, ← h.1]

/-- A non-addition line is only pushed onto the passed-lines accumulator. -/
theorem parsePatchAux_skip {rev rest : List (List Char)} {l : List Char}
    (h : lineIsAddition l = false) :
    parsePatchAux rev (l :: rest) = parsePatchAux (l :: rev) rest := by
  simp [parsePatchAux, h]

/-- A block of non-addition lines moves, reversed, onto the accumulator. -/
theorem parsePatchAux_skip_all {pre : List (List Char)}
    (h : ∀ l ∈ pre, lineIsAddition l = false) (rev rest : List (List Char)) :
    parsePatchAux rev (pre ++ rest) = parsePatchAux (pre.reverse ++ rev) rest := by
  induction pre generalizing rev with
  | nil => simp
  | cons a as ih =>
    rw [List.cons_append, parsePatchAux_skip (h a (by simp)),
      ih (fun l hl => h l (by simp [hl]))]
    simp [List.append_assoc]

/-- On an addition line whose backward walk succeeds, the parser returns
the walk's value. -/
theorem parsePatchAux_hit {rev : List (List Char)} {a : List Char} {v : Nat}
    (ha : lineIsAddition a = true) (hf : findHunkValue rev = some v)
    (rest : List (List Char)) :
    parsePatchAux rev (a :: rest) = v := by
  simp [parsePatchAux, ha, hf]

/-- The backward walk skips a line that is not a hunk header, or is a hunk
header without a `\+(\d+)` match, adding one to the eventual offset. -/
theorem findHunkValue_skip {l : List Char} {rest : List (List Char)}
    (h : lineIsHunkHeader l = false ∨ searchPlusNum l = none) :
    findHunkValue (l :: rest) = (findHunkValue rest).map (· + 1) := by
  rcases h with h | h
  · simp [findHunkValue, h]
  · by_cases hh : lineIsHunkHeader l <;> simp [findHunkValue, hh, h]

/-- The backward walk over skippable lines followed by a matching hunk
header returns the header's number plus the count of skipped lines. -/
theorem findHunkValue_found {mid : List (List Char)} {h : List Char} {n : Nat}
    (hmid : ∀ l ∈ mid, lineIsHunkHeader l = false ∨ searchPlusNum l = none)
    (hh : lineIsHunkHeader h = true) (hn : searchPlusNum h = some n)
    (rest : List (List Char)) :
    findHunkValue (mid ++ h :: rest) = some (n + mid.length) := by
  induction mid with
  | nil => simp [findHunkValue, hh, hn]
  | cons a as ih =>
    rw [List.cons_append, findHunkValue_skip (hmid a (by simp)),
      ih (fun l hl => hmid l (by simp [hl]))]
    simp [Nat.add_assoc]

/-- Resolver value on a decomposed patch: when the lines split as
`pre ++ h :: mid ++ a :: post` with no addition line in `pre`, a hunk
header `h` matching `\+(\d+)` with value `n`, no addition line and no
matching hunk header in `mid`, and an addition line `a`, the resolver
returns `n` plus the number of lines strictly between `h` and `a`. -/
theorem parse_patch_decompose {patch : String}
    {pre mid post : List (List Char)} {h a : List Char} {n : Nat}
    (hsplit : splitLines patch.data = pre ++ h :: (mid ++ a :: post))
    (hpre : ∀ l ∈ pre, lineIsAddition l = false)
    (hh : lineIsHunkHeader h = true)
    (hn : searchPlusNum h = some n)
    (hmid : ∀ l ∈ mid, lineIsAddition l = false ∧
      (lineIsHunkHeader l = false ∨ searchPlusNum l = none))
    (ha : lineIsAddition a = true) :
    parse_patch_for_line patch = n + mid.length := by
  unfold parse_patch_for_line
  rw [hsplit, parsePatchAux_skip_all hpre,
    parsePatchAux_skip (hunk_header_not_addition hh),
    parsePatchAux_skip_all (fun l hl => (hmid l hl).1)]
  refine parsePatchAux_hit ha ?_ post
  rw [findHunkValue_found (fun l hl => (hmid l (List.mem_reverse.mp hl)).2) hh hn]
  simp

/-- When no line of the patch is an addition line, every line is pushed
onto the accumulator and the default `1` is returned. -/
theorem parsePatchAux_no_hits {lines : List (List Char)}
    (h : ∀ l ∈ lines, lineIsAddition l = false) (rev : List (List Char)) :
    parsePatchAux rev lines = 1 := by
  induction lines generalizing rev with
  | nil => rfl
  | cons a as ih =>
    rw [parsePatchAux_skip (h a (by simp))]
    exact ih (fun l hl => h l (by simp [hl])) _

/-- C1: for the patch `"@@ -10,5 +20,6 @@"` immediately followed by one
addition line, `parse_patch_for_line` returns 20; and in general, for a
patch whose first addition line is preceded by a (nearest) hunk header
matching `\+(\d+)` with value `n`, it returns `n` plus the count of lines
strictly between that header and that addition line. -/
theorem parse_patch_first_addition :
    parse_patch_for_line "@@ -10,5 +20,6 @@\n+added" = 20 ∧
    ∀ (patch : String) (pre mid post : List (List Char)) (h a : List Char)
      (n : Nat),
      splitLines patch.data = pre ++ h :: (mid ++ a :: post) →
      (∀ l ∈ pre, lineIsAddition l = false) →
      lineIsHunkHeader h = true →
      searchPlusNum h = some n →
      (∀ l ∈ mid, lineIsAddition l = false ∧
        (lineIsHunkHeader l = false ∨ searchPlusNum l = none)) →
      lineIsAddition a = true →
      parse_patch_for_line patch = n + mid.length :=
  ⟨by decide,
   fun _ _ _ _ _ _ _ hsplit hpre hh hn hmid ha =>
     parse_patch_decompose hsplit hpre hh hn hmid ha⟩

/-- Witness for C1: a concrete patch whose first addition line sits one
line after a hunk header starting at new line 30, so the resolver
returns 31. -/
theorem parse_patch_first_addition_witness :
    parse_patch_for_line "ctx\n@@ -1,2 +30,4 @@\n-old\n+new" = 31 :=
  parse_patch_first_addition.2 "ctx\n@@ -1,2 +30,4 @@\n-old\n+new"
    ["ctx".data] ["-old".data] [] "@@ -1,2 +30,4 @@".data "+new".data 30
    (by decide) (by decide) (by decide) (by decide) (by decide) (by decide)

/-- C2: a patch with no addition line (no line starting with a plus other
than `+++` file headers — here, no line passing the addition test at all)
makes `parse_patch_for_line` return exactly 1, without error. -/
theorem parse_patch_no_additions (patch : String)
    (h : ∀ l ∈ splitLines patch.data, lineIsAddition l = false) :
    parse_patch_for_line patch = 1 :=
  parsePatchAux_no_hits h []

/-- Witness for C2: a deletions-only patch resolves to line 1. -/
theorem parse_patch_no_additions_witness :
    parse_patch_for_line "@@ -3,2 +3,1 @@\n-gone\n ctx" = 1 :=
  parse_patch_no_additions "@@ -3,2 +3,1 @@\n-gone\n ctx" (by decide)

/-- Counterexample to C3 as stated: the patch `"+foo\n@@ -1,1 +5,1 @@"`
contains a hunk header carrying new-start 5 and an addition line, yet the
resolver returns the fallback 1 < 5, because the only addition line comes
before the only hunk header and the backward walk finds nothing. -/
theorem parse_patch_ge_counterexample :
    (∃ l ∈ splitLines ("+foo\n@@ -1,1 +5,1 @@" : String).data,
        lineIsHunkHeader l = true ∧ searchPlusNum l = some 5) ∧
    (∃ l ∈ splitLines ("+foo\n@@ -1,1 +5,1 @@" : String).data,
        lineIsAddition l = true) ∧
    parse_patch_for_line "+foo\n@@ -1,1 +5,1 @@" = 1 ∧ ¬ (5 ≤ 1) := by
  decide

/-- C3 amended: for every patch whose first addition line is preceded by a
hunk header matching `\+(\d+)` (taking the nearest such header, with
new-start value `n`), the resolver returns a line number at least `n`. -/
theorem parse_patch_ge_hunk_start
    (patch : String) (pre mid post : List (List Char)) (h a : List Char)
    (n : Nat)
    (hsplit : splitLines patch.data = pre ++ h :: (mid ++ a :: post))
    (hpre : ∀ l ∈ pre, lineIsAddition l = false)
    (hh : lineIsHunkHeader h = true)
    (hn : searchPlusNum h = some n)
    (hmid : ∀ l ∈ mid, lineIsAddition l = false ∧
      (lineIsHunkHeader l = false ∨ searchPlusNum l = none))
    (ha : lineIsAddition a = true) :
    n ≤ parse_patch_for_line patch := by
  rw [parse_patch_decompose hsplit hpre hh hn hmid ha]
  exact Nat.le_add_right n mid.length

/-- Witness for the amended C3: a hunk starting at new line 40 with the
addition line one context line later bounds the result from below by 40. -/
theorem parse_patch_ge_hunk_start_witness :
    40 ≤ parse_patch_for_line " x\n@@ -2,2 +40,2 @@\n ctx2\n+zz" :=
  parse_patch_ge_hunk_start " x\n@@ -2,2 +40,2 @@\n ctx2\n+zz"
    [" x".data] [" ctx2".data] [] "@@ -2,2 +40,2 @@".data "+zz".data 40
    (by decide) (by decide) (by decide) (by decide) (by decide) (by decide)

/-- Negating an existential Boolean test over a list yields the universal
test of the negations. -/
theorem not_any_eq_all_not {α : Type} (l : List α) (q : α → Bool) :
    (!l.any q) = l.all fun x => !q x := by
  induction l with
  | nil => rfl
  | cons a as ih => simp [List.any_cons, List.all_cons, ih, Bool.not_or]

/-- Deciding a less-or-equal test is the negation of deciding the
reversed strict test. -/
theorem decide_le_eq_not_decide_lt (a b : Nat) :
    decide (a ≤ b) = !decide (b < a) := by
  by_cases h : a ≤ b
  · simp [h, Nat.not_lt.mpr h]
  · simp [h, Nat.lt_of_not_le h]

/-- The code's skip conditions in `keep_file` agree, file by file, with
the specification's positive policy `spec_keep`. -/
theorem keep_file_eq_spec_keep (max_changes : Nat) (pats : List String)
    (f : FileData) :
    keep_file max_changes pats f = spec_keep max_changes pats f := by
  unfold keep_file spec_keep
  rw [← not_any_eq_all_not]
  cases hp : f.patch with
  | none =>
    simp [ne_eq, decide_not, decide_le_eq_not_decide_lt, Bool.not_or,
      Bool.and_assoc]
  | some p =>
    simp [ne_eq, decide_not, decide_le_eq_not_decide_lt, Bool.not_or,
      Bool.and_assoc]

/-- C4: `filter_files` returns exactly the input files that pass all four
policy checks of the specification (status not "removed", change count at
most `max_changes`, present non-empty patch, no exclusion-pattern match),
and the survivors form a sublist of the input, i.e. keep their relative
input order. -/
theorem filter_files_spec (files : List FileData) (max_changes : Nat)
    (pats : List String) :
    filter_files files max_changes (some pats)
        = files.filter (spec_keep max_changes pats) ∧
    List.Sublist (filter_files files max_changes (some pats)) files := by
  constructor
  · exact List.filter_congr fun f _ => keep_file_eq_spec_keep max_changes pats f
  · exact List.filter_sublist files

/-- C10: omitting the exclusion patterns (Python `None`) behaves exactly
like passing the empty pattern list; a file dictionary lacking the
"status" key alone passes the status check — its keep decision
degenerates to the change-count, patch and pattern checks; and a file
dictionary lacking the "changes" key alone has its change count treated
as 0, which is at most every (non-negative) `max_changes`, so its keep
decision degenerates to the status, patch and pattern checks. -/
theorem filter_files_defaults :
    (∀ (files : List FileData) (max_changes : Nat),
      filter_files files max_changes none
        = filter_files files max_changes (some [])) ∧
    (∀ (max_changes : Nat) (pats : List String) (f : FileData),
      f.status = none →
      keep_file max_changes pats f =
        (!decide (f.changes.getD 0 > max_changes) &&
         (match f.patch with
          | some p => !decide (p = "")
          | none => false) &&
         !(pats.any fun pattern => fnmatch f.filename pattern))) ∧
    (∀ (max_changes : Nat) (pats : List String) (f : FileData),
      f.changes = none →
      f.changes.getD 0 = 0 ∧ f.changes.getD 0 ≤ max_changes ∧
      keep_file max_changes pats f =
        (!decide (f.status = some "removed") &&
         (match f.patch with
          | some p => !decide (p = "")
          | none => false) &&
         !(pats.any fun pattern => fnmatch f.filename pattern))) := by
  refine ⟨fun files max_changes => rfl, ?_, ?_⟩
  · intro max_changes pats f hs
    unfold keep_file
    rw [hs]
    cases f.patch <;> simp [Bool.not_or, Bool.and_assoc]
  · intro max_changes pats f hc
    rw [hc]
    refine ⟨rfl, Nat.zero_le max_changes, ?_⟩
    unfold keep_file
    rw [hc]
    cases f.patch <;> simp [Bool.not_or, Bool.and_assoc]

/-- Witness for C10: a file missing only its status key and a file
missing only its change count both reduce to the remaining checks (here
all passing), and the missing change count evaluates to 0. -/
theorem filter_files_defaults_witness :
    filter_files [] 0 none = filter_files [] 0 (some []) ∧
    keep_file 5 [] ⟨"a.py", none, some 3, some "+x"⟩ = true ∧
    (⟨"b.py", some "modified", none, some "+y"⟩ : FileData).changes.getD 0 = 0 ∧
    keep_file 7 [] ⟨"b.py", some "modified", none, some "+y"⟩ = true :=
  ⟨filter_files_defaults.1 [] 0,
   filter_files_defaults.2.1 5 [] ⟨"a.py", none, some 3, some "+x"⟩ rfl,
   (filter_files_defaults.2.2 7 [] ⟨"b.py", some "modified", none, some "+y"⟩
      rfl).1,
   (filter_files_defaults.2.2 7 [] ⟨"b.py", some "modified", none, some "+y"⟩
      rfl).2.2⟩

/-- Run of the pagination loop from page `p`: when the `n` pages starting
at `p` are full (exactly `per_page` items would also do — only the failure
of the `<` test matters) and page `p + n` is short, the loop requests
exactly pages `p, p+1, …, p+n` and concatenates their items in order,
for any sufficient fuel. -/
theorem get_pr_files_loop_spec {α : Type} (fetch : Nat → List α)
    (per_page : Nat) :
    ∀ (n p fuel : Nat),
      (∀ i, i < n → (fetch (p + i)).length = per_page) →
      (fetch (p + n)).length < per_page →
      n < fuel →
      get_pr_files_loop fetch per_page fuel p =
        (((List.range (n + 1)).map fun i => fetch (p + i)).flatten,
         (List.range (n + 1)).map fun i => p + i) := by
  intro n
  induction n with
  | zero =>
    intro p fuel hfull hshort hfuel
    obtain ⟨f, rfl⟩ : ∃ f, fuel = f + 1 := ⟨fuel - 1, by omega⟩
    rw [Nat.add_zero] at hshort
    have hstep : get_pr_files_loop fetch per_page (f + 1) p = (fetch p, [p]) := by
      simp only [get_pr_files_loop]
      rw [if_pos hshort]
    rw [hstep, show List.range 1 = [0] from rfl]
    simp
  | succ m ih =>
    intro p fuel hfull hshort hfuel
    obtain ⟨f, rfl⟩ : ∃ f, fuel = f + 1 := ⟨fuel - 1, by omega⟩
    have h0 : (fetch p).length = per_page := by
      have := hfull 0 (by omega)
      rwa [Nat.add_zero] at this
    have hnot : ¬ (fetch p).length < per_page := by omega
    have ihres := ih (p + 1) f
      (fun i hi => by
        rw [show p + 1 + i = p + (i + 1) by omega]
        exact hfull (i + 1) (by omega))
      (by
        rw [show p + 1 + m = p + (m + 1) by omega]
        exact hshort)
      (by omega)
    have hstep : get_pr_files_loop fetch per_page (f + 1) p
        = (fetch p ++ (get_pr_files_loop fetch per_page f (p + 1)).1,
           p :: (get_pr_files_loop fetch per_page f (p + 1)).2) := by
      simp only [get_pr_files_loop]
      rw [if_neg hnot]
    have hm1 : List.map ((fun i => fetch (p + i)) ∘ Nat.succ)
          (List.range (m + 1))
        = List.map (fun i => fetch (p + 1 + i)) (List.range (m + 1)) :=
      List.map_congr_left fun i _ => by
        show fetch (p + (i + 1)) = fetch (p + 1 + i)
        rw [show p + (i + 1) = p + 1 + i by omega]
    have hm2 : List.map ((fun i => p + i) ∘ Nat.succ) (List.range (m + 1))
        = List.map (fun i => p + 1 + i) (List.range (m + 1)) :=
      List.map_congr_left fun i _ => by
        show p + (i + 1) = p + 1 + i
        omega
    rw [hstep, ihres]
    conv_rhs => rw [List.range_succ_eq_map]
    simp only [List.map_cons, List.flatten_cons, List.map_map, Nat.add_zero,
      hm1, hm2]

/-- C5: the paginated listing accumulates pages in order.  Concretely,
with pages of sizes 100, 100 and 40 at page size 100 it returns 240 items
after exactly the three requests for pages 1, 2, 3; in general, when the
`n` pages starting at page 1 are full and page `n + 1` is short, it
returns the concatenation of pages 1 through `n + 1` in order and requests
exactly the successive page numbers 1 through `n + 1`. -/
theorem get_pr_files_pagination :
    ((get_pr_files paginationExample 100 10).1.length = 240 ∧
     (get_pr_files paginationExample 100 10).2 = [1, 2, 3]) ∧
    ∀ {α : Type} (fetch : Nat → List α) (n per_page fuel : Nat),
      (∀ i, i < n → (fetch (1 + i)).length = per_page) →
      (fetch (1 + n)).length < per_page →
      n < fuel →
      get_pr_files fetch per_page fuel =
        (((List.range (n + 1)).map fun i => fetch (1 + i)).flatten,
         (List.range (n + 1)).map fun i => 1 + i) :=
  ⟨⟨by decide, by decide⟩,
   fun fetch n per_page fuel hfull hshort hfuel =>
     get_pr_files_loop_spec fetch per_page n 1 fuel hfull hshort hfuel⟩

/-- Witness for C5: the three-page endpoint instantiates the general
pagination property with two full pages and a short third page. -/
theorem get_pr_files_pagination_witness :
    get_pr_files paginationExample 100 10 =
      (((List.range 3).map fun i => paginationExample (1 + i)).flatten,
       (List.range 3).map fun i => 1 + i) :=
  get_pr_files_pagination.2 paginationExample 2 100 10
    (by decide) (by decide) (by decide)

/-- C6: before a request, with fewer than 10 remaining calls and the
current time strictly before the reset time, the client sleeps for
`reset - now + 1` seconds — waking exactly at `reset + 1`; with at least
10 remaining calls, or with the reset time already passed, it does not
sleep at all. -/
theorem rate_limit_backoff (remaining : Int) (reset now : ℚ) :
    (remaining < 10 → now < reset →
      rate_limit_sleep remaining reset now = some (reset - now + 1) ∧
      now + (reset - now + 1) = reset + 1) ∧
    (10 ≤ remaining ∨ reset ≤ now →
      rate_limit_sleep remaining reset now = none) := by
  constructor
  · intro h1 h2
    refine ⟨?_, by ring⟩
    simp [rate_limit_sleep, h1, h2]
  · intro h
    rcases h with h | h
    · simp [rate_limit_sleep, not_lt.mpr h]
    · unfold rate_limit_sleep
      by_cases hr : remaining < 10
      · simp [hr, not_lt.mpr h]
      · simp [hr]

/-- Witness for C6: with 5 calls left at time 90 against a reset time of
100 the client sleeps 11 seconds; with 5000 calls left it does not. -/
theorem rate_limit_backoff_witness :
    rate_limit_sleep 5 100 90 = some 11 ∧
    rate_limit_sleep 5000 100 90 = none := by
  constructor
  · have h := (rate_limit_backoff 5 100 90).1 (by norm_num) (by norm_num)
    rw [h.1]
    norm_num
  · exact (rate_limit_backoff 5000 100 90).2 (Or.inl (by norm_num))

/-- C7: with at least one per-file comment the orchestrator submits
exactly one batched review whose payload carries the summary as body, the
inline comments, and the configured event kind; with no comments it
instead posts the summary alone as a general conversation comment. -/
theorem submit_review_branch (commit_id : String)
    (review_comments : List ReviewComment) (summary event : String) :
    (review_comments ≠ [] →
      submit_review commit_id review_comments summary event =
        SubmittedPost.review
          { commit_id := commit_id, body := summary, event := event,
            comments := some review_comments }) ∧
    (review_comments = [] →
      submit_review commit_id review_comments summary event =
        SubmittedPost.issueComment summary) := by
  constructor
  · intro h
    simp [submit_review, create_review, h]
  · intro h
    simp [submit_review, h]

/-- Witness for C7: one comment produces the batched review payload; no
comments produce the plain conversation comment. -/
theorem submit_review_branch_witness :
    submit_review "sha" [⟨"a.py", 3, "note"⟩] "summary" "COMMENT" =
      SubmittedPost.review
        { commit_id := "sha", body := "summary", event := "COMMENT",
          comments := some [⟨"a.py", 3, "note"⟩] } ∧
    submit_review "sha" [] "summary" "COMMENT" =
      SubmittedPost.issueComment "summary" :=
  ⟨(submit_review_branch "sha" [⟨"a.py", 3, "note"⟩] "summary" "COMMENT").1
      (by decide),
   (submit_review_branch "sha" [] "summary" "COMMENT").2 rfl⟩

/-- Counterexample to C8 as stated: on an inference failure the summary
operation's placeholder begins with the heading `"## AI Review Summary"`,
not with the warning marker, so it is not true that both operations return
a placeholder beginning with a warning marker. -/
theorem inference_placeholder_counterexample :
    generate_pr_summary (Except.error "boom") =
      "## AI Review Summary\n\nFailed to generate summary: boom" ∧
    isPrefixOfChars warningMarker.data
      (generate_pr_summary (Except.error "boom")).data = false := by
  constructor
  · decide
  · decide

/-- C8 amended: both inference-client operations catch any inference
failure and return a textual placeholder instead of propagating (both
embedded functions are total on `Except.error`); the per-file analysis
placeholder begins with the warning marker, while the summary placeholder
begins with the summary heading and reports the failure in its body. -/
theorem inference_placeholder_amended (e : String) :
    analyze_file_change (Except.error e) = "⚠️ AI review failed: " ++ e ∧
    isPrefixOfChars warningMarker.data
      (analyze_file_change (Except.error e)).data = true ∧
    generate_pr_summary (Except.error e) =
      "## AI Review Summary\n\nFailed to generate summary: " ++ e ∧
    isPrefixOfChars "## AI Review Summary".data
      (generate_pr_summary (Except.error e)).data = true :=
  ⟨rfl, rfl, rfl, rfl⟩

/-- C9: every review comment built by the orchestrator loop comes from a
file of the reviewed list whose patch is present and non-empty, carries
that file's name as path, and carries exactly the resolver's output on
that very patch as its line number. -/
theorem review_comments_from_patch (analyze : String → String → String)
    (max_files : Nat) (files_to_review : List FileData) (c : ReviewComment)
    (hc : c ∈ build_review_comments analyze max_files files_to_review) :
    ∃ f ∈ files_to_review, ∃ patch, f.patch = some patch ∧ patch ≠ "" ∧
      c.path = f.filename ∧ c.line = parse_patch_for_line patch := by
  unfold build_review_comments at hc
  rcases List.mem_filterMap.mp hc with ⟨f, hf, hmk⟩
  refine ⟨f, List.take_subset _ _ hf, ?_⟩
  split at hmk
  · exact Option.noConfusion hmk
  · rename_i patch hp
    split at hmk
    · exact Option.noConfusion hmk
    · rename_i hpe
      injection hmk with h
      exact ⟨patch, hp, hpe, by rw [← h], by rw [← h]⟩

/-- Witness for C9: the single comment built from a one-file list with a
non-empty patch satisfies the existential. -/
theorem review_comments_from_patch_witness :
    ∃ f ∈ [(⟨"a.py", some "modified", some 2,
        some "@@ -1,1 +8,2 @@\n+x"⟩ : FileData)],
      ∃ patch, f.patch = some patch ∧ patch ≠ "" ∧
        (⟨"a.py", 8, "### AI Code Review\n\nok"⟩ : ReviewComment).path
            = f.filename ∧
        (⟨"a.py", 8, "### AI Code Review\n\nok"⟩ : ReviewComment).line
            = parse_patch_for_line patch :=
  review_comments_from_patch (fun _ _ => "ok") 10
    [⟨"a.py", some "modified", some 2, some "@@ -1,1 +8,2 @@\n+x"⟩]
    ⟨"a.py", 8, "### AI Code Review\n\nok"⟩ (by decide)
